import Mathlib

/-!
Verification development for the ink-queries repository.

The definitions below are a shallow embedding of the Rust sources:

* `src/utils/src/substrate/transcoder/scon/parse.rs` — the SCON literal
  grammar (nom parser combinators), embedded as total functions over
  `List Char` returning `Option (result × remainder)`.
* `src/utils/src/substrate/transcoder/mod.rs` — the
  `ContractMessageTranscoder` (`encode`, `decode_contract_message`,
  `decode_contract_constructor`, `decode_contract_event`,
  `validate_length`), parametrised over the type-directed codec
  (`transcoder.rs` delegates to `encode.rs`/`decode.rs`, which are not part
  of the sources; the transcoder calls them opaquely).
* `src/utils/src/substrate/phala.rs` — the confidential query pipeline
  (`PhalaQuery<Encrypted>::query`, `contract_query`), with network and
  crypto outcomes passed as explicit arguments.
* `src/utils/src/substrate/contract/ink/mod.rs` — `InkMeta::from_config_file`.

Machine integers are modelled as `Nat`/`Int` with explicit bounds; bytes are
`Nat`s below 256 by construction; fallible operations return `Option` or
`Except`.
-/

namespace InkQueries

/-! ## Character classes

The nom character classes used by `parse.rs` (`alphanumeric1`, `digit1`,
`hex_digit1`, `multispace0`) are ASCII-range predicates; they are modelled
directly on the character's code point. -/

/-- ASCII alphanumeric, as recognised by nom's `alphanumeric1`. -/
def isAsciiAlphanum (c : Char) : Bool :=
  (65 ≤ c.toNat && c.toNat ≤ 90) || (97 ≤ c.toNat && c.toNat ≤ 122) ||
    (48 ≤ c.toNat && c.toNat ≤ 57)

/-- ASCII decimal digit, as recognised by nom's `digit1`. -/
def isDigitChar (c : Char) : Bool :=
  48 ≤ c.toNat && c.toNat ≤ 57

/-- ASCII hexadecimal digit, as recognised by nom's `hex_digit1`. -/
def isHexDigitChar (c : Char) : Bool :=
  (48 ≤ c.toNat && c.toNat ≤ 57) || (97 ≤ c.toNat && c.toNat ≤ 102) ||
    (65 ≤ c.toNat && c.toNat ≤ 70)

/-- Whitespace recognised by nom's `multispace0`: space, tab, CR, LF. -/
def isMultispace (c : Char) : Bool :=
  c.toNat = 32 || c.toNat = 9 || c.toNat = 13 || c.toNat = 10

/-- Rust `char::is_alphanumeric` (used by `rust_ident`'s `take_while1`),
modelled on its ASCII fragment: every input exercised by the grammar's
callers in this repository is ASCII. -/
def rustIsAlphanumeric (c : Char) : Bool :=
  isAsciiAlphanum c

/-- The apostrophe character (code point 39). -/
def quoteChar : Char := Char.ofNat 39

/-- The double-quote character (code point 34). -/
def dquoteChar : Char := Char.ofNat 34

/-- The backslash character (code point 92). -/
def backslashChar : Char := Char.ofNat 92

/-! ## Value model

`scon/mod.rs` is not among the sources (only `scon/parse.rs` is).

Modelled from the spec: §3 "Value — tagged union, one of: Unit; Bool; Char;
UInt(unbounded-width unsigned integer); Int(unbounded-width signed integer);
String; Hex(raw byte sequence); Literal(opaque long alphanumeric token);
Seq(ordered list of Value); Tuple(optional type name, ordered list of
Value); Map(optional type name, ordered list of (name, Value) pairs)".
The constructors used by `parse.rs` and `transcoder/mod.rs` fix the shapes:
`Map` entries are `(Value, Value)` pairs (the transcoder inserts
`(Value::String(name), value)`), and integer variants carry `u128`/`i128`
values, modelled as `Nat`/`Int` with bounds enforced at the parse site. -/
inductive Value where
  | unit : Value
  | bool (b : Bool) : Value
  | char (c : Char) : Value
  | uint (n : Nat) : Value
  | int (i : Int) : Value
  | string (s : String) : Value
  | hex (bytes : List Nat) : Value
  | literal (s : String) : Value
  | seq (elems : List Value) : Value
  | tuple (ident : Option String) (elems : List Value) : Value
  | map (ident : Option String) (entries : List (Value × Value)) : Value

/-! ## Parser combinator embedding

A parser consumes a list of characters and either fails or returns a result
together with the unconsumed remainder, mirroring nom's
`IResult<&str, T, ErrorTree<&str>>` (all parsers in `parse.rs` are
`complete`, so every failure is recoverable and `alt` backtracks). -/

/-- Dropping a prefix by predicate never lengthens a list (helper for
termination of the combinator loops). -/
theorem dropWhile_length_le (p : Char → Bool) :
    (l : List Char) → (l.dropWhile p).length ≤ l.length
  | [] => Nat.le_refl _
  | c :: cs => by
    simp only [List.dropWhile]
    cases p c with
    | true => exact Nat.le_succ_of_le (dropWhile_length_le p cs)
    | false => exact Nat.le_refl _

/-- Match a literal tag: return the remainder when `t` is an initial
segment of the input (nom `tag`). -/
def tagMatch : List Char → List Char → Option (List Char)
  | [], input => some input
  | _ :: _, [] => none
  | t :: ts, c :: cs => if t = c then tagMatch ts cs else none

/-- Numeric value of a decimal digit character. -/
def digitVal (c : Char) : Nat := c.toNat - 48

/-- Natural number denoted by a list of decimal digits (most significant
first), as computed by Rust's `str::parse` on a digit-only string. -/
def natOfDigits (ds : List Char) : Nat :=
  ds.foldl (fun acc c => 10 * acc + digitVal c) 0

/-- Numeric value of a hexadecimal digit character. -/
def hexVal (c : Char) : Nat :=
  if 48 ≤ c.toNat && c.toNat ≤ 57 then c.toNat - 48
  else if 97 ≤ c.toNat && c.toNat ≤ 102 then c.toNat - 87
  else if 65 ≤ c.toNat && c.toNat ≤ 70 then c.toNat - 55
  else 0

/-- Decode a run of hexadecimal digits into bytes, two digits per byte;
fails on an odd number of digits. This is `hex::decode` as invoked by
`Hex::from_str` (`scon/mod.rs` is not among the sources; modelled from the
spec's "Hex(raw byte sequence)" and the `hex` crate's documented
behaviour). -/
def hexBytes : List Char → Option (List Nat)
  | [] => some []
  | [_] => none
  | a :: b :: rest =>
    match hexBytes rest with
    | none => none
    | some bs => some ((hexVal a * 16 + hexVal b) :: bs)

/-- Groups of digits after the first group, each preceded by an underscore
separator: the loop of nom's `separated_list0(char('_'), digit1)`. The
separator consumes one character and the digits at least one more, so each
iteration strictly shrinks the input; the structural fuel (`input.length`
at the call site) therefore never runs out. A separator not followed by
digits is left unconsumed. -/
def digitGroupsGo : Nat → List Char → List (List Char) × List Char
  | 0, input => ([], input)
  | Nat.succ fuel, input =>
    match input with
    | '_' :: rest =>
      let ds := rest.takeWhile isDigitChar
      if ds.isEmpty then ([], input)
      else
        let (gs, r) := digitGroupsGo fuel (rest.dropWhile isDigitChar)
        (ds :: gs, r)
    | _ => ([], input)

/-- nom `separated_list0(char('_'), digit1)`: zero or more digit groups
separated by underscores. An empty result is a success. -/
def digitGroups (input : List Char) : List (List Char) × List Char :=
  let ds := input.takeWhile isDigitChar
  if ds.isEmpty then ([], input)
  else
    let (gs, r) := digitGroupsGo input.length (input.dropWhile isDigitChar)
    (ds :: gs, r)

/-! ## Grammar alternatives (parse.rs)

Each function embeds the Rust parser of the same name. The `ws` wrapper
(`delimited(multispace0, f, multispace0)`) appears once, around the
alternative chain, exactly as in `scon_value`; `scon_seq` has its own `ws`
wrappers around the punctuation as in the source. -/

/-- `scon_unit`: `tag("()")` producing `Value::Unit`. -/
def scon_unit (input : List Char) : Option (Value × List Char) :=
  match tagMatch ['(', ')'] input with
  | none => none
  | some rest => some (Value.unit, rest)

/-- `scon_hex`: `tag("0x")` followed by `hex_digit1`, decoded through
`Hex::from_str` (which fails on an odd number of digits). -/
def scon_hex (input : List Char) : Option (Value × List Char) :=
  match tagMatch ['0', 'x'] input with
  | none => none
  | some rest =>
    let ds := rest.takeWhile isHexDigitChar
    if ds.isEmpty then none
    else
      match hexBytes ds with
      | none => none
      | some bs => some (Value.hex bs, rest.dropWhile isHexDigitChar)

/-- `scon_bool`: `tag("false")` or `tag("true")`, in that order. -/
def scon_bool (input : List Char) : Option (Value × List Char) :=
  match tagMatch ['f', 'a', 'l', 's', 'e'] input with
  | some rest => some (Value.bool false, rest)
  | none =>
    match tagMatch ['t', 'r', 'u', 'e'] input with
    | some rest => some (Value.bool true, rest)
    | none => none

/-- `scon_char`: `anychar` delimited by apostrophes. -/
def scon_char (input : List Char) : Option (Value × List Char) :=
  match input with
  | q1 :: c :: q2 :: rest =>
    if q1 = quoteChar && q2 = quoteChar then some (Value.char c, rest) else none
  | _ => none

/-- `scon_literal`: an `alphanumeric1` run strictly longer than
`MAX_UINT_LEN = 39` characters, kept as an opaque token. -/
def scon_literal (input : List Char) : Option (Value × List Char) :=
  let run := input.takeWhile isAsciiAlphanum
  if 39 < run.length then
    some (Value.literal (String.mk run), input.dropWhile isAsciiAlphanum)
  else none

/-- `scon_integer`: optional `+`/`-` sign, then underscore-separated digit
groups joined and parsed as `i128` (when a sign is present) or `u128`.
Out-of-range values and empty digit strings make `map_res` fail. -/
def scon_integer (input : List Char) : Option (Value × List Char) :=
  let (sign, afterSign) :=
    match input with
    | '+' :: r => (some '+', r)
    | '-' :: r => (some '-', r)
    | _ => ((none : Option Char), input)
  let (groups, rest) := digitGroups afterSign
  let digits := groups.flatten
  if digits.isEmpty then none
  else
    let n := natOfDigits digits
    match sign with
    | none => if n < 2 ^ 128 then some (Value.uint n, rest) else none
    | some s =>
      let v : Int := if s = '-' then -(n : Int) else (n : Int)
      if -(2 ^ 127) ≤ v ∧ v ≤ 2 ^ 127 - 1 then some (Value.int v, rest)
      else none

/-- `rust_ident`: peek an ASCII letter or underscore, then take a run of
alphanumerics/underscores (`take_while1`). -/
def rust_ident (input : List Char) : Option (List Char × List Char) :=
  match input with
  | [] => none
  | c :: _ =>
    if (65 ≤ c.toNat && c.toNat ≤ 90) || (97 ≤ c.toNat && c.toNat ≤ 122) ||
        c = '_' then
      some (input.takeWhile (fun d => rustIsAlphanumeric d || d = '_'),
        input.dropWhile (fun d => rustIsAlphanumeric d || d = '_'))
    else none

/-- `scon_unit_tuple`: a bare identifier, read as a zero-field named tuple
(e.g. the enum unit variant `None`). -/
def scon_unit_tuple (input : List Char) : Option (Value × List Char) :=
  match rust_ident input with
  | none => none
  | some (ident, rest) => some (Value.tuple (some (String.mk ident)) [], rest)

/-! ### Strings -/

/-- One unescaped character of a string body: not a control character, not a
double quote, not a backslash (the `nonescaped_string` character test). -/
def isNonEscapedChar (c : Char) : Bool :=
  32 ≤ c.toNat && c.toNat ≠ 34 && c.toNat ≠ 92

/-- One chunk of a string body: a run of unescaped characters
(`take_while1`), or a backslash followed by one of the RFC 8259 escape
heads (`escape_code`); the chunk is returned verbatim (`recognize`). -/
def stringChunk (input : List Char) : Option (List Char × List Char) :=
  let run := input.takeWhile isNonEscapedChar
  if run.isEmpty then
    match input with
    | b :: c :: rest =>
      if b = backslashChar &&
          (c = dquoteChar || c = backslashChar || c = '/' || c = 'b' ||
            c = 'f' || c = 'n' || c = 'r' || c = 't' || c = 'u') then
        some ([b, c], rest)
      else none
    | _ => none
  else some (run, input.dropWhile isNonEscapedChar)

/-- A successful chunk always consumes input. -/
theorem stringChunk_consumes {input chunk rest} (h : stringChunk input = some (chunk, rest)) :
    rest.length < input.length := by
  unfold stringChunk at h
  by_cases hrun : (input.takeWhile isNonEscapedChar).isEmpty
  · simp only [hrun, if_pos] at h
    match input, h with
    | b :: c :: tl, h =>
      by_cases hbc : (b = backslashChar &&
          (c = dquoteChar || c = backslashChar || c = '/' || c = 'b' ||
            c = 'f' || c = 'n' || c = 'r' || c = 't' || c = 'u')) = true
      · simp only [hbc, if_pos] at h
        cases h
        simp [Nat.lt_succ_of_lt]
      · simp [hbc] at h
  · simp only [hrun, if_neg, Bool.false_eq_true, not_false_eq_true] at h
    cases h
    cases hin : input with
    | nil => simp [hin] at hrun
    | cons c cs =>
      subst hin
      simp only [List.dropWhile]
      cases hc : isNonEscapedChar c with
      | true =>
        exact Nat.lt_succ_of_le (dropWhile_length_le isNonEscapedChar cs)
      | false =>
        simp [List.takeWhile, hc] at hrun

/-- `many0` over string chunks, recognised as one span (cannot fail: each
successful chunk consumes at least one character). -/
def stringBody (input : List Char) : List Char × List Char :=
  match h : stringChunk input with
  | none => ([], input)
  | some (c, rest) =>
    have : rest.length < input.length := stringChunk_consumes h
    let (s, r) := stringBody rest
    (c ++ s, r)
termination_by input.length

/-- Unescape an RFC 8259 string body (the `escape8259::unescape` call made
by `scon_string`'s `map_res`): handles the single-character escapes, and
`\uXXXX` with surrogate pairs; fails on a malformed escape. -/
def unescape (input : List Char) : Option (List Char) :=
  match input with
  | [] => some []
  | c :: rest =>
    if c = backslashChar then
      match rest with
      | [] => none
      | e :: rest2 =>
        if e = dquoteChar then (unescape rest2).map (dquoteChar :: ·)
        else if e = backslashChar then (unescape rest2).map (backslashChar :: ·)
        else if e = '/' then (unescape rest2).map ('/' :: ·)
        else if e = 'b' then (unescape rest2).map (Char.ofNat 8 :: ·)
        else if e = 'f' then (unescape rest2).map (Char.ofNat 12 :: ·)
        else if e = 'n' then (unescape rest2).map (Char.ofNat 10 :: ·)
        else if e = 'r' then (unescape rest2).map (Char.ofNat 13 :: ·)
        else if e = 't' then (unescape rest2).map (Char.ofNat 9 :: ·)
        else if e = 'u' then
          match rest2 with
          | h1 :: h2 :: h3 :: h4 :: rest3 =>
            if isHexDigitChar h1 && isHexDigitChar h2 && isHexDigitChar h3 &&
                isHexDigitChar h4 then
              let n := ((hexVal h1 * 16 + hexVal h2) * 16 + hexVal h3) * 16 + hexVal h4
              if 0xD800 ≤ n ∧ n ≤ 0xDBFF then
                match rest3 with
                | b2 :: u2 :: g1 :: g2 :: g3 :: g4 :: rest4 =>
                  if b2 = backslashChar && u2 = 'u' && isHexDigitChar g1 &&
                      isHexDigitChar g2 && isHexDigitChar g3 && isHexDigitChar g4 then
                    let m := ((hexVal g1 * 16 + hexVal g2) * 16 + hexVal g3) * 16 + hexVal g4
                    if 0xDC00 ≤ m ∧ m ≤ 0xDFFF then
                      (unescape rest4).map
                        (Char.ofNat (0x10000 + (n - 0xD800) * 0x400 + (m - 0xDC00)) :: ·)
                    else none
                  else none
                | _ => none
              else if 0xDC00 ≤ n ∧ n ≤ 0xDFFF then none
              else (unescape rest3).map (Char.ofNat n :: ·)
            else none
          | _ => none
        else none
    else (unescape rest).map (c :: ·)
termination_by input.length
decreasing_by all_goals simp_arith [List.length_cons]

/-- `scon_string`: a double-quoted body of chunks, unescaped to a
`Value::String`. -/
def scon_string (input : List Char) : Option (Value × List Char) :=
  match input with
  | c :: rest =>
    if c = dquoteChar then
      let (body, r) := stringBody rest
      match r with
      | c2 :: r2 =>
        if c2 = dquoteChar then
          (unescape body).map (fun s => (Value.string (String.mk s), r2))
        else none
      | [] => none
    else none
  | [] => none

/-! ### The alternative chain and sequences

`scon_value` is recursive through `scon_seq`. The Rust recursion is bounded
only by the call stack; the embedding threads a fuel parameter, decremented
at every recursive entry. Every recursive entry is reached only after at
least one character has been consumed (a `[` for each nesting level, a `,`
and an element for each further list item), so `2 * length + 2` fuel — the
amount supplied by `parse_value` — is never exhausted on any input. -/

/-- nom `ws(char(c))`: optional whitespace, the character `c`, optional
whitespace. -/
def wsChar (c : Char) (input : List Char) : Option (List Char) :=
  match input.dropWhile isMultispace with
  | d :: rest => if d = c then some (rest.dropWhile isMultispace) else none
  | [] => none

mutual

/-- `scon_value`: `ws`-wrapped `alt` over the nine grammar alternatives in
source order: unit, hex, seq, string, literal, integer, bool, char,
unit-tuple. -/
def scon_value : Nat → List Char → Option (Value × List Char)
  | 0, _ => none
  | Nat.succ fuel, input =>
    let inner := input.dropWhile isMultispace
    let res :=
      match scon_unit inner with
      | some r => some r
      | none =>
      match scon_hex inner with
      | some r => some r
      | none =>
      match scon_seq fuel inner with
      | some r => some r
      | none =>
      match scon_string inner with
      | some r => some r
      | none =>
      match scon_literal inner with
      | some r => some r
      | none =>
      match scon_integer inner with
      | some r => some r
      | none =>
      match scon_bool inner with
      | some r => some r
      | none =>
      match scon_char inner with
      | some r => some r
      | none => scon_unit_tuple inner
    match res with
    | none => none
    | some (v, rest) => some (v, rest.dropWhile isMultispace)

/-- `scon_seq`: `ws('[')`, comma-separated `scon_value` elements, an
optional trailing comma, `ws(']')`. -/
def scon_seq : Nat → List Char → Option (Value × List Char)
  | 0, _ => none
  | Nat.succ fuel, input =>
    match wsChar '[' input with
    | none => none
    | some rest0 =>
      match sconSeqElems fuel rest0 with
      | none => none
      | some (elems, rest1) =>
        let rest2 :=
          match wsChar ',' rest1 with
          | some r => r
          | none => rest1
        match wsChar ']' rest2 with
        | none => none
        | some rest3 => some (Value.seq elems, rest3)

/-- nom `separated_list0(ws(char(',')), scon_value)`: a failing first
element yields the empty list. -/
def sconSeqElems : Nat → List Char → Option (List Value × List Char)
  | 0, _ => none
  | Nat.succ fuel, input =>
    match scon_value fuel input with
    | none => some ([], input)
    | some (v, rest) =>
      match sconSeqRest fuel rest with
      | none => none
      | some (vs, rest') => some (v :: vs, rest')

/-- The loop of `separated_list0`: a separator followed by an element; a
separator not followed by an element is left unconsumed. nom aborts if the
separator succeeds without consuming (impossible for `ws(char(','))`, which
always consumes the comma); the guard is kept for fidelity. -/
def sconSeqRest : Nat → List Char → Option (List Value × List Char)
  | 0, _ => none
  | Nat.succ fuel, input =>
    match wsChar ',' input with
    | none => some ([], input)
    | some rest1 =>
      if rest1.length = input.length then none
      else
        match scon_value fuel rest1 with
        | none => some ([], input)
        | some (v, rest2) =>
          match sconSeqRest fuel rest2 with
          | none => none
          | some (vs, rest') => some (v :: vs, rest')

end

/-- `parse_value`: run `scon_value` on the input and keep only the parsed
value, discarding the unconsumed remainder (`let (_, value) = scon_value(input)?`).
The fuel `2 * length + 2` exceeds the recursion depth reachable on the
input (each nesting level consumes a bracket, each list item a comma). -/
def parse_value (s : String) : Option Value :=
  match scon_value (2 * s.data.length + 2) s.data with
  | none => none
  | some (v, _) => some v

/-! ## Message transcoder (transcoder/mod.rs)

The transcoder resolves names/selectors against the ink metadata and drives
the type-directed codec positionally. The codec itself
(`Transcoder::encode`/`decode`, implemented in `encode.rs`/`decode.rs`,
which are not among the sources) is passed in as an opaque function, exactly
as `ContractMessageTranscoder` holds a `Transcoder` it calls opaquely:
an encoder takes a type id and a `Value` and either fails or yields the
bytes appended to the output buffer; a decoder takes a type id and the
input and either fails or yields a `Value` and the advanced input cursor. -/

abbrev TypeId := Nat

/-- A 4-byte ink selector (`[u8; 4]`, via `.to_bytes()`). -/
structure Selector where
  b0 : Nat
  b1 : Nat
  b2 : Nat
  b3 : Nat
deriving DecidableEq

/-- The four bytes of a selector in order. -/
def Selector.toBytes (s : Selector) : List Nat := [s.b0, s.b1, s.b2, s.b3]

/-- One declared argument of a message/constructor/event: its label and the
registry type id. -/
structure ArgSpec where
  label : String
  tyId : TypeId

/-- An ink message spec: label, selector, declared args, optional return
type id. -/
structure MessageSpec where
  label : String
  selector : Selector
  args : List ArgSpec
  returnTy : Option TypeId

/-- An ink constructor spec: label, selector, declared args. -/
structure ConstructorSpec where
  label : String
  selector : Selector
  args : List ArgSpec

/-- An ink event spec: label and declared args (ink event specs carry no
selector; events are identified positionally). -/
structure EventSpec where
  label : String
  args : List ArgSpec

/-- The portions of the `InkProject` metadata the transcoder reads. -/
structure InkProject where
  constructors : List ConstructorSpec
  messages : List MessageSpec
  events : List EventSpec

/-- Errors surfaced by the transcoder. The Rust code returns formatted
`anyhow` strings; each constructor carries the same data the corresponding
message interpolates. -/
inductive TrErr where
  | ambiguousName (name : String)
  | nameNotFound (name : String)
  | arity (expected provided : Nat)
  | parseFailed (arg : String)
  | encodeFailed (id : TypeId)
  | decodeFailed (id : TypeId)
  | inputExhausted
  | compactOutOfRange
  | compactUnexpected
  | eventVariantNotFound (index : Nat)
  | messageSelectorNotFound (selector : List Nat)
  | constructorSelectorNotFound (selector : List Nat)
  | longInput (leftover : Nat) (label : String) (argNames : List Value)
      (tailBytes : List Nat)
deriving Inhabited

/-- An opaque per-type encoder (the `Transcoder::encode` callback): bytes to
append, or failure. -/
abbrev EncodeFn := TypeId → Value → Option (List Nat)

/-- An opaque per-type decoder (the `Transcoder::decode` callback): decoded
value and remaining input, or failure. -/
abbrev DecodeFn := TypeId → List Nat → Option (Value × List Nat)

/-- An opaque literal parser, to state that the arity check precedes any
parsing; `ContractMessageTranscoder.encode` instantiates it with the real
`parse_value`. -/
abbrev ParseFn := String → Option Value

/-- `find_message_spec`: first message whose label equals `name`. -/
def find_message_spec (m : InkProject) (name : String) : Option MessageSpec :=
  m.messages.find? (fun msg => msg.label == name)

/-- `find_constructor_spec`: first constructor whose label equals `name`. -/
def find_constructor_spec (m : InkProject) (name : String) : Option ConstructorSpec :=
  m.constructors.find? (fun msg => msg.label == name)

/-- The positional argument loop of `encode`: parse each literal with the
literal parser, encode it against the declared type id, and append to the
buffer (which already holds the selector). -/
def encodeArgsLoop (parse : ParseFn) (enc : EncodeFn) :
    List (ArgSpec × String) → List Nat → Except TrErr (List Nat)
  | [], acc => .ok acc
  | (spec, arg) :: rest, acc =>
    match parse arg with
    | none => .error (.parseFailed arg)
    | some v =>
      match enc spec.tyId v with
      | none => .error (.encodeFailed spec.tyId)
      | some bytes => encodeArgsLoop parse enc rest (acc ++ bytes)

/-- The body of `encode` once a spec is resolved: the arity check, then the
argument loop seeded with the selector bytes. -/
def encodeWithSpec (parse : ParseFn) (enc : EncodeFn) (selector : Selector)
    (specArgs : List ArgSpec) (args : List String) : Except TrErr (List Nat) :=
  if specArgs.length ≠ args.length then
    .error (.arity specArgs.length args.length)
  else encodeArgsLoop parse enc (specArgs.zip args) selector.toBytes

/-- `ContractMessageTranscoder::encode`, with the literal parser left as a
parameter (instantiated with the real one by `encode` below): resolve the
name among constructors and messages, then encode. -/
def encodeCore (m : InkProject) (parse : ParseFn) (enc : EncodeFn)
    (name : String) (args : List String) : Except TrErr (List Nat) :=
  match find_constructor_spec m name, find_message_spec m name with
  | some c, none => encodeWithSpec parse enc c.selector c.args args
  | none, some s => encodeWithSpec parse enc s.selector s.args args
  | some _, some _ => .error (.ambiguousName name)
  | none, none => .error (.nameNotFound name)

/-- `ContractMessageTranscoder::encode` with the SCON literal parser in
place, as in the source (`scon::parse_value(arg.as_ref())?`). -/
def ContractMessageTranscoder.encode (m : InkProject) (enc : EncodeFn)
    (name : String) (args : List String) : Except TrErr (List Nat) :=
  encodeCore m parse_value enc name args

/-! ### Decoding -/

/-- SCALE `Compact<u32>` decoding (`parity-scale-codec`), used by
`decode_contract_event` for the ignored leading length: single-byte,
two-byte, four-byte and big-integer modes, with the canonical-range
checks. -/
def decodeCompactU32 (data : List Nat) : Except TrErr (Nat × List Nat) :=
  match data with
  | [] => .error .inputExhausted
  | b :: rest =>
    match b % 4 with
    | 0 => .ok (b / 4, rest)
    | 1 =>
      match rest with
      | [] => .error .inputExhausted
      | b1 :: r =>
        let x := (b + b1 * 256) / 4
        if 0x3F < x ∧ x ≤ 0x3FFF then .ok (x, r) else .error .compactOutOfRange
    | 2 =>
      match rest with
      | b1 :: b2 :: b3 :: r =>
        let x := (b + b1 * 256 + b2 * 65536 + b3 * 16777216) / 4
        if 0x3FFF < x ∧ x ≤ 0x3FFFFFFF then .ok (x, r)
        else .error .compactOutOfRange
      | _ => .error .inputExhausted
    | _ =>
      if b / 4 = 0 then
        match rest with
        | b0 :: b1 :: b2 :: b3 :: r =>
          let x := b0 + b1 * 256 + b2 * 65536 + b3 * 16777216
          if 0x3FFFFFFF < x then .ok (x, r) else .error .compactOutOfRange
        | _ => .error .inputExhausted
      else .error .compactUnexpected

/-- The declared-field loop shared by the three `decode_contract_*`
functions: decode each argument against its type id, labelling it with the
argument name. -/
def decodeArgsLoop (dec : DecodeFn) :
    List ArgSpec → List Nat → Except TrErr (List (Value × Value) × List Nat)
  | [], data => .ok ([], data)
  | arg :: rest, data =>
    match dec arg.tyId data with
    | none => .error (.decodeFailed arg.tyId)
    | some (v, data') =>
      match decodeArgsLoop dec rest data' with
      | .error e => .error e
      | .ok (args, dataEnd) => .ok ((Value.string arg.label, v) :: args, dataEnd)

/-- `validate_length`: after all declared fields are decoded the input must
be exactly exhausted; leftover bytes are an error carrying the leftover
count, the spec's label, the decoded argument names and the undecoded
tail. -/
def validate_length (data : List Nat) (label : String)
    (args : List (Value × Value)) : Except TrErr Unit :=
  if data.isEmpty then .ok ()
  else .error (.longInput data.length label (args.map Prod.fst) data)

/-- `decode_contract_message`: read a 4-byte selector, find the message spec
with that selector, decode its declared fields, require exhaustion. -/
def decode_contract_message (m : InkProject) (dec : DecodeFn)
    (data : List Nat) : Except TrErr Value :=
  if data.length < 4 then .error .inputExhausted
  else
    let sel := data.take 4
    match m.messages.find? (fun x => sel == x.selector.toBytes) with
    | none => .error (.messageSelectorNotFound sel)
    | some spec =>
      match decodeArgsLoop dec spec.args (data.drop 4) with
      | .error e => .error e
      | .ok (args, rest) =>
        match validate_length rest spec.label args with
        | .error e => .error e
        | .ok _ => .ok (Value.map (some spec.label) args)

/-- `decode_contract_constructor`: as for messages, over the constructor
specs. -/
def decode_contract_constructor (m : InkProject) (dec : DecodeFn)
    (data : List Nat) : Except TrErr Value :=
  if data.length < 4 then .error .inputExhausted
  else
    let sel := data.take 4
    match m.constructors.find? (fun x => sel == x.selector.toBytes) with
    | none => .error (.constructorSelectorNotFound sel)
    | some spec =>
      match decodeArgsLoop dec spec.args (data.drop 4) with
      | .error e => .error e
      | .ok (args, rest) =>
        match validate_length rest spec.label args with
        | .error e => .error e
        | .ok _ => .ok (Value.map (some spec.label) args)

/-- `decode_contract_event`: decode and discard a `Compact<u32>` length,
read one variant-index byte, select the event spec at that index in the
metadata's event list, decode its declared fields, require exhaustion. -/
def decode_contract_event (m : InkProject) (dec : DecodeFn)
    (data : List Nat) : Except TrErr Value :=
  match decodeCompactU32 data with
  | .error e => .error e
  | .ok (_len, rest) =>
    match rest with
    | [] => .error .inputExhausted
    | b :: rest' =>
      match m.events[b]? with
      | none => .error (.eventVariantNotFound b)
      | some spec =>
        match decodeArgsLoop dec spec.args rest' with
        | .error e => .error e
        | .ok (args, restEnd) =>
          match validate_length restEnd spec.label args with
          | .error e => .error e
          | .ok _ => .ok (Value.map (some spec.label) args)

/-! ## Confidential query pipeline (phala.rs)

The network round trips and crypto primitives (RPC submission,
`decode_encrypted_data`, AEAD decryption, SCALE decoding of the inner
response) are external collaborators; the pipeline is embedded as a pure
function of their outcomes, with the control flow of the source kept
intact. A nonce is the `[u8; 32]` from `type Nonce = [u8; 32]`, modelled as
a 32-element byte list. -/

/-- `phala_types::contract::ContractQueryHead { id, nonce }`. -/
structure ContractQueryHead (CId : Type) where
  id : CId
  nonce : List Nat

/-- `phala_types::contract::ContractQuery { head, data }`. -/
structure ContractQuery (CId D : Type) where
  head : ContractQueryHead CId
  data : D

/-- The decoded inner response
(`contract::ContractQueryResponse<Response>`): the nonce echoed by the
worker and the result payload. -/
structure ContractQueryResponse (R : Type) where
  nonce : List Nat
  result : R

/-- Failure modes of the confidential pipeline, mirroring the `anyhow`
errors raised in `PhalaQuery<Encrypted>::query` (phala.rs:158-190). -/
inductive PhalaErr where
  | rpcFailed
  | decodeEncryptedDataFailed
  | decryptFailed
  | responseDecodeFailed
  | nonceMismatch
deriving DecidableEq

/-- `PhalaQuery<Encrypted>::query` (phala.rs:158-190): submit the encrypted
request, decrypt and decode the response, then require the echoed nonce to
equal the one originally sent before exposing the result. `sentNonce` is
`self.nonce` (set in `PhalaQuery::new` from the caller's query and carried
through `encrypt_and_sign`); `rpc` is the outcome of
`pr.contract_query(request)`, `decodeEnc` of
`response.decode_encrypted_data()`, `decrypt` of
`encrypted_data.decrypt(&ecdh_key)`, and `decodeResp` of
`Decode::decode(&mut &data[..])`. -/
def phala_query_step {Raw Enc R : Type} (sentNonce : List Nat)
    (rpc : Option Raw) (decodeEnc : Raw → Option Enc)
    (decrypt : Enc → Option (List Nat))
    (decodeResp : List Nat → Option (ContractQueryResponse R)) :
    Except PhalaErr R :=
  match rpc with
  | none => .error .rpcFailed
  | some raw =>
    match decodeEnc raw with
    | none => .error .decodeEncryptedDataFailed
    | some enc =>
      match decrypt enc with
      | none => .error .decryptFailed
      | some data =>
        match decodeResp data with
        | none => .error .responseDecodeFailed
        | some resp =>
          if resp.nonce ≠ sentNonce then .error .nonceMismatch
          else .ok resp.result

/-- The nonce with which `contract_query` builds every request
(phala.rs:327: `let nonce = [1; 32];`). -/
def contract_query_nonce : List Nat := List.replicate 32 1

/-- The request head built by `contract_query` (phala.rs:327-329): the
destination contract id together with the hardcoded nonce; the caller's
payload is attached unchanged. -/
def contract_query_request {CId D : Type} (id : CId) (data : D) :
    ContractQuery CId D :=
  { head := { id := id, nonce := contract_query_nonce }, data := data }

/-- `PhalaQuery<InProcess>::encrypt_and_sign` nonce flow (phala.rs:112-155):
the state transition passes `self.nonce` through unchanged (`nonce:
self.nonce`), deriving the IV from it; the embedding records the nonce
carried into the `Encrypted` state as a function of the nonce held in the
`InProcess` state. -/
def encrypt_and_sign_nonce (selfNonce : Option (List Nat)) : Option (List Nat) :=
  selfNonce

/-! ## Contract configuration (contract/ink/mod.rs) -/

/-- The fields `InkMeta::from_config_file` extracts from the parsed TOML
(each `extract!` yields `Option<String>`). -/
structure IdConfig where
  ink_contract_id : Option String
  phala_contract_id : Option String
  contract_path : Option String
  url : Option String

/-- `InkMeta` as constructed by `from_config_file`: at most one of the two
contract identifiers is populated. -/
structure InkMeta (A C : Type) where
  file : String
  url : String
  ink_contract_id : Option A
  phala_contract_id : Option C

/-- Failures of configuration loading and of query dispatch. `decode_hex`
uses `expect`, so a malformed confidential id aborts; the abort is modelled
as the `badHex` error. -/
inductive ConfigErr where
  | failedToLoadContractId
  | badAccountId
  | badHex
  | badContractId
  | failedToLoadFile
  | failedToLoadUrl
  | missingNonce
deriving DecidableEq

/-- Hex decoding as done by `decode_hex`/`try_decode_hex`: strip an
optional `0x`, then decode hex digit pairs. -/
def config_decode_hex (s : String) : Option (List Nat) :=
  let chars :=
    match s.data with
    | '0' :: 'x' :: rest => rest
    | cs => cs
  if chars.all isHexDigitChar then hexBytes chars else none

/-- `InkMeta::from_config_file` (ink/mod.rs:53-94), with the out-of-scope
conversions passed in (`AccountId::from_str` for a direct id,
`ContractId::decode` on the hex-decoded bytes for a confidential id):
exactly one of the two ids must be present in the configuration, the
matched one is converted, and the file path and url are then required. -/
def from_config_file {A C : Type} (accountFromStr : String → Option A)
    (contractIdDecode : List Nat → Option C) (cfg : IdConfig) :
    Except ConfigErr (InkMeta A C) :=
  match cfg.ink_contract_id, cfg.phala_contract_id with
  | some id, none =>
    match accountFromStr id with
    | none => .error .badAccountId
    | some aid =>
      match cfg.contract_path with
      | none => .error .failedToLoadFile
      | some file =>
        match cfg.url with
        | none => .error .failedToLoadUrl
        | some url =>
          .ok { file := file, url := url,
                ink_contract_id := some aid, phala_contract_id := none }
  | none, some id =>
    match config_decode_hex id with
    | none => .error .badHex
    | some bytes =>
      match contractIdDecode bytes with
      | none => .error .badContractId
      | some cid =>
        match cfg.contract_path with
        | none => .error .failedToLoadFile
        | some file =>
          match cfg.url with
          | none => .error .failedToLoadUrl
          | some url =>
            .ok { file := file, url := url,
                  ink_contract_id := none, phala_contract_id := some cid }
  | _, _ => .error .failedToLoadContractId

/-- The backend selected for a query: transparent dry-run against a direct
contract id, or the confidential session against a confidential contract
id with the caller's nonce. -/
inductive Backend (A C : Type) where
  | transparent (id : A)
  | confidential (id : C) (nonce : List Nat)

/-- Modelled from the spec: the query dispatcher itself (the `call_msg`
entry point invoked by `debug-cli/src/main.rs`) is not among the sources;
§4.4 requires "exactly one of {direct id, confidential id} to be present;
otherwise fail with a configuration error", and, for the confidential path,
a caller-supplied nonce ("absence is a caller-usage error"). The dispatcher
returns the selected backend; the single RPC round trip (transparent) or
the session (confidential) happens only after a backend is returned, so a
configuration failure precedes any RPC. -/
def dispatch_query {A C : Type} (meta : InkMeta A C)
    (nonce : Option (List Nat)) : Except ConfigErr (Backend A C) :=
  match meta.ink_contract_id, meta.phala_contract_id with
  | some id, none => .ok (.transparent id)
  | none, some id =>
    match nonce with
    | some n => .ok (.confidential id n)
    | none => .error .missingNonce
  | _, _ => .error .failedToLoadContractId

/-! ## Derived predicates and fixtures used in theorem statements -/

/-- Condition under which the `scon_hex` alternative succeeds on an input:
it starts with `0x`, followed by at least one hexadecimal digit, and the
maximal run of hexadecimal digits has even length (so `hex::decode`
accepts it). -/
def hexAltMatches (s : List Char) : Bool :=
  match s with
  | c :: c2 :: rest =>
    c = '0' && c2 = 'x' &&
      (!(rest.takeWhile isHexDigitChar).isEmpty &&
        (rest.takeWhile isHexDigitChar).length % 2 == 0)
  | _ => false

/-- A 40-character alphanumeric string that begins with a hex literal:
`0x` followed by 38 `a`s. -/
def longHexString : String := String.mk ('0' :: 'x' :: List.replicate 38 'a')

/-- A 40-character alphanumeric string with no hex head: 40 `z`s. -/
def longAlnumString : String := String.mk (List.replicate 40 'z')

/-! # Theorems -/

/-! ## C10 — parse_value ignores the unconsumed remainder -/

/-- C10: for every input string on which the grammar matches an initial
segment, `parse_value` succeeds with the value parsed from that segment,
silently discarding the trailing unmatched remainder (`parse.rs:56-60`
binds the remainder to `_`): whatever remainder `scon_value` leaves,
`parse_value` returns the value alone. -/
theorem parse_value_discards_remainder (s : String) (v : Value) (rest : List Char)
    (h : scon_value (2 * s.data.length + 2) s.data = some (v, rest)) :
    parse_value s = some v := by
  unfold parse_value
  rw [h]

/-- Witness for C10: `"true xyz"` parses to `Bool(true)`, the unmatched
remainder `xyz` being discarded. -/
theorem parse_value_discards_remainder_witness :
    scon_value (2 * ("true xyz").data.length + 2) ("true xyz").data =
      some (Value.bool true, ['x', 'y', 'z']) ∧
    parse_value "true xyz" = some (Value.bool true) :=
  ⟨rfl, parse_value_discards_remainder "true xyz" (Value.bool true)
    ['x', 'y', 'z'] rfl⟩

/-! ## C1 — nonce mismatch is a hard protocol failure -/

/-- C1: in `PhalaQuery<Encrypted>::query`, whenever the decrypted and
decoded response echoes a nonce different from the one originally sent, the
call returns the nonce-mismatch error; and a result payload is exposed only
on runs in which decryption and decoding succeeded and the echoed nonce
equals the sent one — so no run, whatever the decryption outcome, exposes a
payload under a nonce mismatch. -/
theorem phala_nonce_mismatch_rejected {Raw Enc R : Type} (sentNonce : List Nat)
    (rpc : Option Raw) (decodeEnc : Raw → Option Enc)
    (decrypt : Enc → Option (List Nat))
    (decodeResp : List Nat → Option (ContractQueryResponse R)) :
    (∀ raw enc data resp, rpc = some raw → decodeEnc raw = some enc →
      decrypt enc = some data → decodeResp data = some resp →
      resp.nonce ≠ sentNonce →
      phala_query_step sentNonce rpc decodeEnc decrypt decodeResp =
        .error .nonceMismatch) ∧
    (∀ r, phala_query_step sentNonce rpc decodeEnc decrypt decodeResp = .ok r →
      ∃ raw enc data resp, rpc = some raw ∧ decodeEnc raw = some enc ∧
        decrypt enc = some data ∧ decodeResp data = some resp ∧
        resp.nonce = sentNonce ∧ r = resp.result) := by
  constructor
  · intro raw enc data resp h1 h2 h3 h4 h5
    simp [phala_query_step, h1, h2, h3, h4, h5]
  · intro r h
    cases hrpc : rpc with
    | none => simp [phala_query_step, hrpc] at h
    | some raw =>
      cases henc : decodeEnc raw with
      | none => simp [phala_query_step, hrpc, henc] at h
      | some enc =>
        cases hdec : decrypt enc with
        | none => simp [phala_query_step, hrpc, henc, hdec] at h
        | some data =>
          cases hresp : decodeResp data with
          | none => simp [phala_query_step, hrpc, henc, hdec, hresp] at h
          | some resp =>
            by_cases hn : resp.nonce = sentNonce
            · refine ⟨raw, enc, data, resp, rfl, henc, hdec, hresp, hn, ?_⟩
              simp [phala_query_step, hrpc, henc, hdec, hresp, hn] at h
              exact h.symm
            · simp [phala_query_step, hrpc, henc, hdec, hresp, hn] at h



/-- Witness for C1: a run whose response decrypts and decodes successfully
but echoes nonce `[2, ...]` against sent nonce `[1, ...]` fails with the
nonce-mismatch error. -/
theorem phala_nonce_mismatch_rejected_witness :
    (ContractQueryResponse.nonce ⟨List.replicate 32 2, (7 : Nat)⟩ ≠ List.replicate 32 1) ∧
    phala_query_step (List.replicate 32 1) (some (0 : Nat)) (fun _ => some (0 : Nat))
      (fun _ => some []) (fun _ => some ⟨List.replicate 32 2, (7 : Nat)⟩) =
      .error .nonceMismatch :=
  ⟨by decide,
    (phala_nonce_mismatch_rejected (List.replicate 32 1) (some 0) (fun _ => some 0)
      (fun _ => some []) (fun _ => some ⟨List.replicate 32 2, 7⟩)).1
      0 0 [] ⟨List.replicate 32 2, 7⟩ rfl rfl rfl rfl (by decide)⟩

/-! ## C2 — nonce freshness (code bug: the nonce is a hardcoded constant) -/

/-- C2 evidence: `contract_query` stamps every request it builds with the
same hardcoded 32-byte nonce `[1; 32]` (phala.rs:327), whatever the
destination contract, payload, signing key or point in time — so any two
confidential calls through `contract_query` (hence through
`pink_query_raw`) reuse one nonce, contradicting the fresh-nonce-per-call
invariant; and the `encrypt_and_sign` transition never refreshes the nonce
either, it forwards whatever nonce the caller supplied. -/
theorem contract_query_nonce_never_fresh :
    (∀ {CId D : Type} (id1 id2 : CId) (data1 data2 : D),
      (contract_query_request id1 data1).head.nonce =
        (contract_query_request id2 data2).head.nonce) ∧
    (∀ {CId D : Type} (id : CId) (data : D),
      (contract_query_request id data).head.nonce = List.replicate 32 1) ∧
    (∀ n, encrypt_and_sign_nonce n = n) := by
  refine ⟨fun _ _ _ _ => rfl, fun _ _ => rfl, fun _ => rfl⟩

/-! ## C9 — exactly one contract identifier -/

/-- C9: a configuration carrying both a direct (ink) and a confidential
(phala) contract id, or neither, is rejected with the configuration error
by `InkMeta::from_config_file`, and any `InkMeta` it does produce carries
exactly one of the two ids; dispatching a query (spec-modelled `call_msg`
dispatcher, §4.4) over a meta with both or neither id set fails with the
configuration error before a backend — and hence before any RPC round
trip — is selected, and a query proceeds to a backend only when exactly one
id is present. -/
theorem query_requires_exactly_one_contract_id {A C : Type}
    (accountFromStr : String → Option A) (contractIdDecode : List Nat → Option C) :
    (∀ cfg : IdConfig,
      (cfg.ink_contract_id.isSome ∧ cfg.phala_contract_id.isSome) ∨
        (cfg.ink_contract_id = none ∧ cfg.phala_contract_id = none) →
      from_config_file accountFromStr contractIdDecode cfg =
        .error .failedToLoadContractId) ∧
    (∀ cfg meta, from_config_file accountFromStr contractIdDecode cfg = .ok meta →
      (meta.ink_contract_id.isSome ∧ meta.phala_contract_id = none) ∨
        (meta.ink_contract_id = none ∧ meta.phala_contract_id.isSome)) ∧
    (∀ (meta : InkMeta A C) nonce,
      (meta.ink_contract_id.isSome ∧ meta.phala_contract_id.isSome) ∨
        (meta.ink_contract_id = none ∧ meta.phala_contract_id = none) →
      dispatch_query meta nonce = .error .failedToLoadContractId) ∧
    (∀ (meta : InkMeta A C) nonce b, dispatch_query meta nonce = .ok b →
      (meta.ink_contract_id.isSome ∧ meta.phala_contract_id = none) ∨
        (meta.ink_contract_id = none ∧ meta.phala_contract_id.isSome)) := by
  refine ⟨?_, ?_, ?_, ?_⟩
  · rintro ⟨i, p, f, u⟩ h
    cases i <;> cases p <;> simp_all [from_config_file]
  · rintro ⟨i, p, f, u⟩ meta h
    cases i with
    | none =>
      cases p with
      | none => simp [from_config_file] at h
      | some id =>
        cases hh : config_decode_hex id with
        | none => simp [from_config_file, hh] at h
        | some bytes =>
          cases hc : contractIdDecode bytes with
          | none => simp [from_config_file, hh, hc] at h
          | some cid =>
            cases f with
            | none => simp [from_config_file, hh, hc] at h
            | some file =>
              cases u with
              | none => simp [from_config_file, hh, hc] at h
              | some url =>
                simp only [from_config_file, hh, hc, Except.ok.injEq] at h
                subst h
                right
                exact ⟨rfl, rfl⟩
    | some id =>
      cases p with
      | some id2 => simp [from_config_file] at h
      | none =>
        cases ha : accountFromStr id with
        | none => simp [from_config_file, ha] at h
        | some aid =>
          cases f with
          | none => simp [from_config_file, ha] at h
          | some file =>
            cases u with
            | none => simp [from_config_file, ha] at h
            | some url =>
              simp only [from_config_file, ha, Except.ok.injEq] at h
              subst h
              left
              exact ⟨rfl, rfl⟩
  · rintro ⟨f, u, i, p⟩ nonce h
    cases i <;> cases p <;> simp_all [dispatch_query]
  · rintro ⟨f, u, i, p⟩ nonce b h
    cases i with
    | none =>
      cases p with
      | none => simp [dispatch_query] at h
      | some id => right; exact ⟨rfl, rfl⟩
    | some id =>
      cases p with
      | none => left; exact ⟨rfl, rfl⟩
      | some id2 => simp [dispatch_query] at h

/-- Witness for C9: a configuration with neither id set is rejected, one
with both ids set is rejected, and a dispatch over a both-ids meta fails
with the configuration error. -/
theorem query_requires_exactly_one_contract_id_witness :
    ((none : Option String) = none ∧ (none : Option String) = none) ∧
    from_config_file (fun s => some s) (fun b => some b)
      ⟨none, none, some "f", some "u"⟩ = .error .failedToLoadContractId ∧
    from_config_file (fun s => some s) (fun b => some b)
      ⟨some "a", some "b", some "f", some "u"⟩ = .error .failedToLoadContractId ∧
    dispatch_query (A := String) (C := List Nat)
      ⟨"f", "u", some "a", some [1]⟩ none = .error .failedToLoadContractId :=
  ⟨⟨rfl, rfl⟩,
    (query_requires_exactly_one_contract_id (fun s => some s) (fun b => some b)).1
      ⟨none, none, some "f", some "u"⟩ (Or.inr ⟨rfl, rfl⟩),
    (query_requires_exactly_one_contract_id (fun s => some s) (fun b => some b)).1
      ⟨some "a", some "b", some "f", some "u"⟩ (Or.inl ⟨rfl, rfl⟩),
    (query_requires_exactly_one_contract_id (fun s => some s)
      (fun b => some b)).2.2.1 ⟨"f", "u", some "a", some [1]⟩ none
      (Or.inl ⟨rfl, rfl⟩)⟩


/-! ## C3 — name resolution: exactly one spec must match -/

/-- A name occurs among the constructor specs exactly when
`find_constructor_spec` finds it. -/
theorem find_constructor_spec_isSome (m : InkProject) (name : String) :
    (find_constructor_spec m name).isSome ↔ ∃ c ∈ m.constructors, c.label = name := by
  simp [find_constructor_spec, List.find?_isSome]

/-- A name occurs among the message specs exactly when `find_message_spec`
finds it. -/
theorem find_message_spec_isSome (m : InkProject) (name : String) :
    (find_message_spec m name).isSome ↔ ∃ s ∈ m.messages, s.label = name := by
  simp [find_message_spec, List.find?_isSome]

/-- C3: `encode` fails with the ambiguity error naming the call when both a
constructor and a message carry the name, fails with the not-found error
naming the call when neither does, and returns bytes only when exactly one
of the two namespaces carries the name. -/
theorem encode_name_resolution (m : InkProject) (enc : EncodeFn) (name : String)
    (args : List String) :
    ((∃ c ∈ m.constructors, c.label = name) ∧ (∃ s ∈ m.messages, s.label = name) →
      ContractMessageTranscoder.encode m enc name args =
        .error (.ambiguousName name)) ∧
    ((¬ ∃ c ∈ m.constructors, c.label = name) ∧ (¬ ∃ s ∈ m.messages, s.label = name) →
      ContractMessageTranscoder.encode m enc name args =
        .error (.nameNotFound name)) ∧
    (∀ out, ContractMessageTranscoder.encode m enc name args = .ok out →
      ((∃ c ∈ m.constructors, c.label = name) ↔
        ¬ ∃ s ∈ m.messages, s.label = name)) := by
  refine ⟨?_, ?_, ?_⟩
  · intro ⟨hc, hs⟩
    rw [← find_constructor_spec_isSome] at hc
    rw [← find_message_spec_isSome] at hs
    rcases Option.isSome_iff_exists.mp hc with ⟨c, hc⟩
    rcases Option.isSome_iff_exists.mp hs with ⟨s, hs⟩
    simp [ContractMessageTranscoder.encode, encodeCore, hc, hs]
  · intro ⟨hc, hs⟩
    rw [← find_constructor_spec_isSome, Option.isSome_iff_exists] at hc
    rw [← find_message_spec_isSome, Option.isSome_iff_exists] at hs
    push_neg at hc hs
    have hc' : find_constructor_spec m name = none := Option.eq_none_iff_forall_not_mem.mpr
      (fun a ha => hc a ha)
    have hs' : find_message_spec m name = none := Option.eq_none_iff_forall_not_mem.mpr
      (fun a ha => hs a ha)
    simp [ContractMessageTranscoder.encode, encodeCore, hc', hs']
  · intro out h
    rw [← find_constructor_spec_isSome, ← find_message_spec_isSome]
    unfold ContractMessageTranscoder.encode encodeCore at h
    cases hc : find_constructor_spec m name with
    | none =>
      cases hs : find_message_spec m name with
      | none => rw [hc, hs] at h; cases h
      | some s => simp [hc, hs]
    | some c =>
      cases hs : find_message_spec m name with
      | none => simp [hc, hs]
      | some s => rw [hc, hs] at h; cases h

/-- Witness for C3: a metadata set in which both a constructor and a message
are labelled `init` makes `encode` fail with the ambiguity error; a name
carried by neither fails with the not-found error. -/
theorem encode_name_resolution_witness :
    ((∃ c ∈ [ConstructorSpec.mk "init" ⟨0, 0, 0, 0⟩ []], c.label = "init") ∧
      (∃ s ∈ [MessageSpec.mk "init" ⟨1, 1, 1, 1⟩ [] none], s.label = "init")) ∧
    ContractMessageTranscoder.encode
      ⟨[⟨"init", ⟨0, 0, 0, 0⟩, []⟩], [⟨"init", ⟨1, 1, 1, 1⟩, [], none⟩], []⟩
      (fun _ _ => some []) "init" [] = .error (.ambiguousName "init") ∧
    ContractMessageTranscoder.encode
      ⟨[⟨"init", ⟨0, 0, 0, 0⟩, []⟩], [⟨"init", ⟨1, 1, 1, 1⟩, [], none⟩], []⟩
      (fun _ _ => some []) "other" [] = .error (.nameNotFound "other") :=
  ⟨⟨⟨_, List.mem_singleton.mpr rfl, rfl⟩, ⟨_, List.mem_singleton.mpr rfl, rfl⟩⟩,
    (encode_name_resolution ⟨[⟨"init", ⟨0, 0, 0, 0⟩, []⟩],
        [⟨"init", ⟨1, 1, 1, 1⟩, [], none⟩], []⟩ (fun _ _ => some []) "init" []).1
      ⟨⟨_, List.mem_singleton.mpr rfl, rfl⟩, ⟨_, List.mem_singleton.mpr rfl, rfl⟩⟩,
    (encode_name_resolution ⟨[⟨"init", ⟨0, 0, 0, 0⟩, []⟩],
        [⟨"init", ⟨1, 1, 1, 1⟩, [], none⟩], []⟩ (fun _ _ => some []) "other" []).2.1
      ⟨by simp, by simp⟩⟩


/-! ## C4 — the arity check precedes parsing and encoding -/

/-- C4: once a spec is resolved, a mismatch between the number of provided
argument literals and the number of declared arguments makes `encode` fail
with the arity error carrying the expected and provided counts — and it
does so for every literal parser and every codec encoder, so the failure
cannot depend on (and happens without) parsing or encoding any argument. -/
theorem encode_arity_checked_first (m : InkProject) (name : String)
    (args : List String) (parse : ParseFn) (enc : EncodeFn) :
    (∀ c, find_constructor_spec m name = some c → find_message_spec m name = none →
      c.args.length ≠ args.length →
      encodeCore m parse enc name args = .error (.arity c.args.length args.length)) ∧
    (∀ s, find_message_spec m name = some s → find_constructor_spec m name = none →
      s.args.length ≠ args.length →
      encodeCore m parse enc name args = .error (.arity s.args.length args.length)) := by
  constructor
  · intro c hc hs hlen
    simp [encodeCore, hc, hs, encodeWithSpec, hlen]
  · intro sp hs hc hlen
    simp [encodeCore, hc, hs, encodeWithSpec, hlen]

/-- Witness for C4: calling a no-argument message with one literal fails
with the arity error expecting 0 and reporting 1 — under a literal parser
and a codec that both always fail, confirming neither was consulted. -/
theorem encode_arity_checked_first_witness :
    find_message_spec ⟨[], [⟨"get", ⟨1, 2, 3, 4⟩, [], none⟩], []⟩ "get" =
      some ⟨"get", ⟨1, 2, 3, 4⟩, [], none⟩ ∧
    find_constructor_spec ⟨[], [⟨"get", ⟨1, 2, 3, 4⟩, [], none⟩], []⟩ "get" = none ∧
    ([] : List ArgSpec).length ≠ ["5"].length ∧
    encodeCore ⟨[], [⟨"get", ⟨1, 2, 3, 4⟩, [], none⟩], []⟩ (fun _ => none)
      (fun _ _ => none) "get" ["5"] = .error (.arity 0 1) :=
  ⟨rfl, rfl, by decide,
    (encode_arity_checked_first ⟨[], [⟨"get", ⟨1, 2, 3, 4⟩, [], none⟩], []⟩ "get"
      ["5"] (fun _ => none) (fun _ _ => none)).2 ⟨"get", ⟨1, 2, 3, 4⟩, [], none⟩
      rfl rfl (by decide)⟩

/-! ## C5 — wire format of successful encodes -/

/-- A successful run of the argument loop appends, to the seed buffer, the
per-argument encodings in positional order and nothing else. -/
theorem encodeArgsLoop_ok (parse : ParseFn) (enc : EncodeFn) :
    ∀ (pairs : List (ArgSpec × String)) (acc out : List Nat),
      encodeArgsLoop parse enc pairs acc = .ok out →
      ∃ encs : List (List Nat), out = acc ++ encs.flatten ∧
        List.Forall₂ (fun (pa : ArgSpec × String) (bytes : List Nat) =>
          ∃ v, parse pa.2 = some v ∧ enc pa.1.tyId v = some bytes) pairs encs := by
  intro pairs
  induction pairs with
  | nil =>
    intro acc out h
    simp only [encodeArgsLoop] at h
    cases h
    exact ⟨[], by simp, List.Forall₂.nil⟩
  | cons pa rest ih =>
    intro acc out h
    obtain ⟨spec, arg⟩ := pa
    simp only [encodeArgsLoop] at h
    cases hp : parse arg with
    | none => simp only [hp] at h; cases h
    | some v =>
      simp only [hp] at h
      cases he : enc spec.tyId v with
      | none => simp only [he] at h; cases h
      | some bytes =>
        simp only [he] at h
        obtain ⟨encs, hout, hall⟩ := ih (acc ++ bytes) out h
        refine ⟨bytes :: encs, ?_, List.Forall₂.cons ⟨v, hp, he⟩ hall⟩
        simp [hout]

/-- C5: every successful `encode` returns exactly the resolved spec's
4-byte selector followed by the per-argument encodings in declared
positional order — no padding, no length prefix around the buffer. -/
theorem encode_wire_format (m : InkProject) (enc : EncodeFn) (name : String)
    (args : List String) (out : List Nat)
    (h : ContractMessageTranscoder.encode m enc name args = .ok out) :
    ∃ (sel : Selector) (specArgs : List ArgSpec),
      ((∃ c, find_constructor_spec m name = some c ∧ find_message_spec m name = none ∧
          sel = c.selector ∧ specArgs = c.args) ∨
        (∃ s, find_message_spec m name = some s ∧ find_constructor_spec m name = none ∧
          sel = s.selector ∧ specArgs = s.args)) ∧
      specArgs.length = args.length ∧ sel.toBytes.length = 4 ∧
      ∃ encs : List (List Nat), out = sel.toBytes ++ encs.flatten ∧
        List.Forall₂ (fun (pa : ArgSpec × String) (bytes : List Nat) =>
          ∃ v, parse_value pa.2 = some v ∧ enc pa.1.tyId v = some bytes)
          (specArgs.zip args) encs := by
  unfold ContractMessageTranscoder.encode encodeCore encodeWithSpec at h
  cases hc : find_constructor_spec m name with
  | none =>
    cases hs : find_message_spec m name with
    | none => simp only [hc, hs] at h; cases h
    | some sp =>
      simp only [hc, hs] at h
      by_cases hlen : sp.args.length ≠ args.length
      · rw [if_pos hlen] at h; cases h
      · rw [if_neg hlen] at h
        push_neg at hlen
        obtain ⟨encs, hout, hall⟩ := encodeArgsLoop_ok parse_value enc _ _ _ h
        exact ⟨sp.selector, sp.args, Or.inr ⟨sp, rfl, rfl, rfl, rfl⟩, hlen, rfl,
          encs, hout, hall⟩
  | some c =>
    cases hs : find_message_spec m name with
    | some sp => simp only [hc, hs] at h; cases h
    | none =>
      simp only [hc, hs] at h
      by_cases hlen : c.args.length ≠ args.length
      · rw [if_pos hlen] at h; cases h
      · rw [if_neg hlen] at h
        push_neg at hlen
        obtain ⟨encs, hout, hall⟩ := encodeArgsLoop_ok parse_value enc _ _ _ h
        exact ⟨c.selector, c.args, Or.inl ⟨c, rfl, rfl, rfl, rfl⟩, hlen, rfl,
          encs, hout, hall⟩

/-- Witness for C5: encoding message `get` with one `u8`-style argument
literal `"5"` yields exactly selector bytes `[1, 2, 3, 4]` followed by the
argument encoding `[5]`. -/
theorem encode_wire_format_witness :
    ContractMessageTranscoder.encode ⟨[], [⟨"get", ⟨1, 2, 3, 4⟩, [⟨"x", 0⟩], none⟩], []⟩
      (fun _ v => match v with | Value.uint n => some [n] | _ => none) "get" ["5"] =
      .ok [1, 2, 3, 4, 5] ∧
    (∃ sel specArgs,
      ((∃ c, find_constructor_spec ⟨[], [⟨"get", ⟨1, 2, 3, 4⟩, [⟨"x", 0⟩], none⟩], []⟩
            "get" = some c ∧
          find_message_spec ⟨[], [⟨"get", ⟨1, 2, 3, 4⟩, [⟨"x", 0⟩], none⟩], []⟩
            "get" = none ∧ sel = c.selector ∧ specArgs = c.args) ∨
        (∃ s, find_message_spec ⟨[], [⟨"get", ⟨1, 2, 3, 4⟩, [⟨"x", 0⟩], none⟩], []⟩
            "get" = some s ∧
          find_constructor_spec ⟨[], [⟨"get", ⟨1, 2, 3, 4⟩, [⟨"x", 0⟩], none⟩], []⟩
            "get" = none ∧ sel = s.selector ∧ specArgs = s.args)) ∧
      specArgs.length = ["5"].length ∧ Selector.toBytes sel = [1, 2, 3, 4] ∧
      ∃ encs : List (List Nat), [1, 2, 3, 4, 5] = sel.toBytes ++ encs.flatten) := by
  have h : ContractMessageTranscoder.encode
      ⟨[], [⟨"get", ⟨1, 2, 3, 4⟩, [⟨"x", 0⟩], none⟩], []⟩
      (fun _ v => match v with | Value.uint n => some [n] | _ => none) "get" ["5"] =
      .ok [1, 2, 3, 4, 5] := rfl
  refine ⟨h, ?_⟩
  obtain ⟨sel, specArgs, hres, hlen, _hfour, encs, hout, _⟩ :=
    encode_wire_format _ _ "get" ["5"] _ h
  have hsel : Selector.toBytes sel = [1, 2, 3, 4] := by
    rcases hres with ⟨c, hc, _⟩ | ⟨sp, hsp, _, hselc, _⟩
    · cases hc
    · cases hsp
      rw [hselc]
      rfl
  exact ⟨sel, specArgs, hres, hlen, hsel, encs, hout⟩


/-! ## C6 — exact consumption after decoding declared fields -/

/-- C6: for each of the three inbound decoders, once every declared field
has decoded successfully, leftover input bytes produce the long-input error
carrying the leftover byte count, the spec's label, the decoded argument
names and the undecoded tail, instead of being ignored. -/
theorem decode_exact_consumption (m : InkProject) (dec : DecodeFn) (data : List Nat) :
    (∀ spec args rest, ¬ data.length < 4 →
      m.messages.find? (fun x => data.take 4 == x.selector.toBytes) = some spec →
      decodeArgsLoop dec spec.args (data.drop 4) = .ok (args, rest) → rest ≠ [] →
      decode_contract_message m dec data =
        .error (.longInput rest.length spec.label (args.map Prod.fst) rest)) ∧
    (∀ spec args rest, ¬ data.length < 4 →
      m.constructors.find? (fun x => data.take 4 == x.selector.toBytes) = some spec →
      decodeArgsLoop dec spec.args (data.drop 4) = .ok (args, rest) → rest ≠ [] →
      decode_contract_constructor m dec data =
        .error (.longInput rest.length spec.label (args.map Prod.fst) rest)) ∧
    (∀ len b rest2 spec args rest, decodeCompactU32 data = .ok (len, b :: rest2) →
      m.events[b]? = some spec →
      decodeArgsLoop dec spec.args rest2 = .ok (args, rest) → rest ≠ [] →
      decode_contract_event m dec data =
        .error (.longInput rest.length spec.label (args.map Prod.fst) rest)) := by
  refine ⟨?_, ?_, ?_⟩
  · intro spec args rest h4 hfind hloop hne
    simp only [decode_contract_message, if_neg h4, hfind, hloop, validate_length,
      List.isEmpty_eq_true]
    rw [if_neg hne]
  · intro spec args rest h4 hfind hloop hne
    simp only [decode_contract_constructor, if_neg h4, hfind, hloop, validate_length,
      List.isEmpty_eq_true]
    rw [if_neg hne]
  · intro len b rest2 spec args rest hcompact hev hloop hne
    simp only [decode_contract_event, hcompact, hev, hloop, validate_length,
      List.isEmpty_eq_true]
    rw [if_neg hne]

/-- Witness for C6: decoding a zero-argument message whose selector is
`[1, 2, 3, 4]` from `[1, 2, 3, 4, 9]` leaves the byte `9` unread and fails
with the long-input error naming label `m`, leftover count `1` and tail
`[9]`. -/
theorem decode_exact_consumption_witness :
    (¬ ([1, 2, 3, 4, 9] : List Nat).length < 4) ∧
    ([9] : List Nat) ≠ [] ∧
    decode_contract_message ⟨[], [⟨"m", ⟨1, 2, 3, 4⟩, [], none⟩], []⟩
      (fun _ _ => none) [1, 2, 3, 4, 9] = .error (.longInput 1 "m" [] [9]) :=
  ⟨by decide, by decide,
    (decode_exact_consumption ⟨[], [⟨"m", ⟨1, 2, 3, 4⟩, [], none⟩], []⟩
      (fun _ _ => none) [1, 2, 3, 4, 9]).1 ⟨"m", ⟨1, 2, 3, 4⟩, [], none⟩ [] [9]
      (by decide) rfl rfl (by decide)⟩

/-! ## C8 — event decoding is by variant index, not by 4-byte selector -/

/-- Counterexample for C8 as stated: `decode_contract_event` succeeds on a
2-byte input (a compact length byte and a variant-index byte), which cannot
contain a 4-byte selector, and it selects the event at position 1 of the
event list — event specs carry no selector at all. -/
theorem decode_event_selector_counterexample :
    decode_contract_event ⟨[], [], [⟨"A", []⟩, ⟨"B", []⟩]⟩ (fun _ _ => none) [0, 1] =
      .ok (Value.map (some "B") []) ∧
    ¬ 4 ≤ ([0, 1] : List Nat).length :=
  ⟨rfl, by decide⟩

/-- C8 amended: `decode_contract_event` reads a SCALE compact length
(which it discards) and then a single variant-index byte, and selects the
event spec at that index in the metadata's event list — consulting only the
event namespace (its result is unchanged under any change to the message
and constructor specs), failing with an index-naming error when the index
is out of range — before decoding the event's declared fields. -/
theorem decode_event_variant_index (m : InkProject) (dec : DecodeFn) (data : List Nat) :
    (∀ m' : InkProject, m'.events = m.events →
      decode_contract_event m' dec data = decode_contract_event m dec data) ∧
    (∀ v, decode_contract_event m dec data = .ok v →
      ∃ len b rest spec args, decodeCompactU32 data = .ok (len, b :: rest) ∧
        m.events[b]? = some spec ∧
        decodeArgsLoop dec spec.args rest = .ok (args, []) ∧
        v = Value.map (some spec.label) args) ∧
    (∀ len b rest, decodeCompactU32 data = .ok (len, b :: rest) →
      m.events[b]? = none →
      decode_contract_event m dec data = .error (.eventVariantNotFound b)) := by
  refine ⟨?_, ?_, ?_⟩
  · intro m' hev
    unfold decode_contract_event
    rw [hev]
  · intro v h
    unfold decode_contract_event at h
    cases hcompact : decodeCompactU32 data with
    | error e => rw [hcompact] at h; cases h
    | ok p =>
      obtain ⟨len, rest0⟩ := p
      rw [hcompact] at h
      cases rest0 with
      | nil => cases h
      | cons b rest =>
        cases hev : m.events[b]? with
        | none => simp only [hev] at h; cases h
        | some spec =>
          simp only [hev] at h
          cases hloop : decodeArgsLoop dec spec.args rest with
          | error e => simp only [hloop] at h; cases h
          | ok q =>
            obtain ⟨args, restEnd⟩ := q
            simp only [hloop, validate_length] at h
            by_cases hend : restEnd.isEmpty
            · simp only [hend, if_true] at h
              refine ⟨len, b, rest, spec, args, rfl, hev, ?_,
                (Except.ok.inj h).symm⟩
              rw [hloop, List.isEmpty_iff.mp hend]
            · simp [hend] at h
  · intro len b rest hcompact hev
    unfold decode_contract_event
    rw [hcompact]
    simp only [hev]

/-- Witness for C8 amended: on input `[0, 1]` over a two-event metadata the
compact length is 0, the variant index byte selects the second event, and
an out-of-range index byte `5` fails naming index 5. -/
theorem decode_event_variant_index_witness :
    decode_contract_event ⟨[], [], [⟨"A", []⟩, ⟨"B", []⟩]⟩ (fun _ _ => none) [0, 1] =
      .ok (Value.map (some "B") []) ∧
    (∃ len b rest spec args,
      decodeCompactU32 [0, 1] = .ok (len, b :: rest) ∧
      (InkProject.events ⟨[], [], [⟨"A", []⟩, ⟨"B", []⟩]⟩)[b]? = some spec ∧
      decodeArgsLoop (fun _ _ => none) spec.args rest = .ok (args, []) ∧
      Value.map (some "B") [] = Value.map (some spec.label) args) ∧
    decodeCompactU32 [0, 5] = .ok (0, [5]) ∧
    decode_contract_event ⟨[], [], [⟨"A", []⟩, ⟨"B", []⟩]⟩ (fun _ _ => none) [0, 5] =
      .error (.eventVariantNotFound 5) :=
  ⟨rfl,
    (decode_event_variant_index ⟨[], [], [⟨"A", []⟩, ⟨"B", []⟩]⟩
      (fun _ _ => none) [0, 1]).2.1 (Value.map (some "B") []) rfl,
    rfl,
    (decode_event_variant_index ⟨[], [], [⟨"A", []⟩, ⟨"B", []⟩]⟩
      (fun _ _ => none) [0, 5]).2.2 0 5 [] rfl rfl⟩


/-! ## C7 — literal grammar: examples and alternative priority -/

/-- A character cannot be both alphanumeric and not. -/
theorem ne_of_alnum_mismatch {c d : Char} (hc : isAsciiAlphanum c = true)
    (hd : isAsciiAlphanum d = false) : ¬ d = c := by
  intro h
  subst h
  rw [hc] at hd
  cases hd

/-- An ASCII alphanumeric character is not multispace. -/
theorem alnum_not_multispace {c : Char} (hc : isAsciiAlphanum c = true) :
    isMultispace c = false := by
  simp only [isAsciiAlphanum, Bool.or_eq_true, Bool.and_eq_true,
    decide_eq_true_eq] at hc
  simp only [isMultispace, Bool.or_eq_false_iff, decide_eq_false_iff_not]
  omega

/-- A list all of whose elements satisfy `p` is its own `takeWhile`. -/
theorem takeWhile_eq_self_of_all {p : Char → Bool} :
    ∀ {l : List Char}, l.all p = true → l.takeWhile p = l
  | [], _ => rfl
  | c :: cs, h => by
    simp only [List.all_cons, Bool.and_eq_true] at h
    simp [List.takeWhile, h.1, takeWhile_eq_self_of_all h.2]

/-- A list all of whose elements satisfy `p` has empty `dropWhile`. -/
theorem dropWhile_eq_nil_of_all {p : Char → Bool} :
    ∀ {l : List Char}, l.all p = true → l.dropWhile p = []
  | [], _ => rfl
  | c :: cs, h => by
    simp only [List.all_cons, Bool.and_eq_true] at h
    simp [List.dropWhile, h.1, dropWhile_eq_nil_of_all h.2]

/-- Leading whitespace skipping leaves an alphanumeric-headed input
unchanged. -/
theorem dropWhile_multispace_of_alnum_head {c : Char} (cs : List Char)
    (hc : isAsciiAlphanum c = true) :
    (c :: cs).dropWhile isMultispace = c :: cs := by
  simp [List.dropWhile, alnum_not_multispace hc]

/-- An even run of hex digits decodes. -/
theorem hexBytes_isSome_of_even :
    ∀ l : List Char, l.length % 2 = 0 → ∃ bs, hexBytes l = some bs
  | [], _ => ⟨[], rfl⟩
  | [_], h => by simp at h
  | a :: b :: rest, h => by
    obtain ⟨bs, hbs⟩ := hexBytes_isSome_of_even rest (by
      simp only [List.length_cons] at h
      omega)
    exact ⟨(hexVal a * 16 + hexVal b) :: bs, by simp [hexBytes, hbs]⟩

/-- An odd run of hex digits fails to decode. -/
theorem hexBytes_eq_none_of_odd :
    ∀ l : List Char, l.length % 2 = 1 → hexBytes l = none
  | [], h => by simp at h
  | [_], _ => rfl
  | a :: b :: rest, h => by
    have hrec := hexBytes_eq_none_of_odd rest (by
      simp only [List.length_cons] at h
      omega)
    simp [hexBytes, hrec]

/-- The sequence alternative fails on any alphanumeric-headed input, for
any fuel. -/
theorem scon_seq_eq_none_of_alnum_head {c : Char} (cs : List Char)
    (hc : isAsciiAlphanum c = true) : ∀ fuel, scon_seq fuel (c :: cs) = none
  | 0 => rfl
  | Nat.succ fuel => by
    have hb : ¬ c = '[' := by
      intro h
      rw [h] at hc
      exact absurd hc (by decide)
    simp [scon_seq, wsChar, dropWhile_multispace_of_alnum_head cs hc, hb]

/-- The unit alternative fails on any alphanumeric-headed input. -/
theorem scon_unit_eq_none_of_alnum_head {c : Char} (cs : List Char)
    (hc : isAsciiAlphanum c = true) : scon_unit (c :: cs) = none := by
  have hb : ¬ ('(' : Char) = c := ne_of_alnum_mismatch hc (by decide)
  simp [scon_unit, tagMatch, hb]

/-- The string alternative fails on any alphanumeric-headed input. -/
theorem scon_string_eq_none_of_alnum_head {c : Char} (cs : List Char)
    (hc : isAsciiAlphanum c = true) : scon_string (c :: cs) = none := by
  have hb : ¬ c = dquoteChar := by
    intro h
    rw [h] at hc
    exact absurd hc (by decide)
  simp [scon_string, hb]

/-- The opaque-literal alternative consumes a fully alphanumeric input
longer than 39 characters whole. -/
theorem scon_literal_all_alnum {l : List Char}
    (hall : l.all isAsciiAlphanum = true) (hlen : 39 < l.length) :
    scon_literal l = some (Value.literal (String.mk l), []) := by
  simp [scon_literal, takeWhile_eq_self_of_all hall, dropWhile_eq_nil_of_all hall,
    hlen]

/-- Evaluation of `scon_value` on a fully alphanumeric input longer than 39
characters: the hex alternative wins exactly when `hexAltMatches`, and the
opaque-literal alternative wins otherwise; no other alternative is ever
reached. -/
theorem scon_value_long_alnum (c c2 : Char) (cs2 : List Char)
    (hall : (c :: c2 :: cs2).all isAsciiAlphanum = true)
    (hlen : 39 < (c :: c2 :: cs2).length) : ∀ fuel,
    (hexAltMatches (c :: c2 :: cs2) = true ∧
      ∃ bs rest, scon_value (Nat.succ fuel) (c :: c2 :: cs2) =
        some (Value.hex bs, rest)) ∨
    (hexAltMatches (c :: c2 :: cs2) = false ∧
      scon_value (Nat.succ fuel) (c :: c2 :: cs2) =
        some (Value.literal (String.mk (c :: c2 :: cs2)), [])) := by
  intro fuel
  have hc : isAsciiAlphanum c = true := by
    simp only [List.all_cons, Bool.and_eq_true] at hall
    exact hall.1
  have hdropws := dropWhile_multispace_of_alnum_head (c2 :: cs2) hc
  have hunit := scon_unit_eq_none_of_alnum_head (c2 :: cs2) hc
  have hseq := scon_seq_eq_none_of_alnum_head (c2 :: cs2) hc fuel
  have hstr := scon_string_eq_none_of_alnum_head (c2 :: cs2) hc
  have hlit := scon_literal_all_alnum hall hlen
  by_cases h0 : c = '0'
  · subst h0
    by_cases hx : c2 = 'x'
    · subst hx
      by_cases hempty : (cs2.takeWhile isHexDigitChar).isEmpty
      · have hhex : scon_hex ('0' :: 'x' :: cs2) = none := by
          simp [scon_hex, tagMatch, hempty]
        right
        refine ⟨by simp [hexAltMatches, hempty], ?_⟩
        simp [scon_value, hdropws, hunit, hhex, hseq, hstr, hlit]
      · rcases Nat.mod_two_eq_zero_or_one (cs2.takeWhile isHexDigitChar).length
          with heven | hodd
        · obtain ⟨bs, hbs⟩ :=
            hexBytes_isSome_of_even (cs2.takeWhile isHexDigitChar) heven
          have hhex : scon_hex ('0' :: 'x' :: cs2) =
              some (Value.hex bs, cs2.dropWhile isHexDigitChar) := by
            simp [scon_hex, tagMatch, hempty, hbs]
          left
          refine ⟨by simp [hexAltMatches, hempty, heven], ?_⟩
          exact ⟨bs, (cs2.dropWhile isHexDigitChar).dropWhile isMultispace,
            by simp [scon_value, hdropws, hunit, hhex]⟩
        · have hnone := hexBytes_eq_none_of_odd (cs2.takeWhile isHexDigitChar) hodd
          have hhex : scon_hex ('0' :: 'x' :: cs2) = none := by
            simp [scon_hex, tagMatch, hempty, hnone]
          right
          refine ⟨by simp [hexAltMatches, hempty, hodd], ?_⟩
          simp [scon_value, hdropws, hunit, hhex, hseq, hstr, hlit]
    · have hhex : scon_hex ('0' :: c2 :: cs2) = none := by
        have hb : ¬ ('x' : Char) = c2 := fun h => hx h.symm
        simp [scon_hex, tagMatch, hb]
      right
      refine ⟨by simp [hexAltMatches, hx], ?_⟩
      simp [scon_value, hdropws, hunit, hhex, hseq, hstr, hlit]
  · have hhex : scon_hex (c :: c2 :: cs2) = none := by
      have hb : ¬ ('0' : Char) = c := fun h => h0 h.symm
      simp [scon_hex, tagMatch, hb]
    right
    refine ⟨by simp [hexAltMatches, h0], ?_⟩
    simp [scon_value, hdropws, hunit, hhex, hseq, hstr, hlit]

/-- `parse_value` on a `String.mk` input, with the fuel argument in
successor form. -/
theorem parse_value_eq (l : List Char) :
    parse_value (String.mk l) =
      match scon_value (Nat.succ (2 * l.length + 1)) l with
      | none => none
      | some (v, _) => some v := rfl

/-- `parse_value` on a fully alphanumeric input longer than 39 characters:
a `Hex` value when the hex alternative matches, the whole input as an
opaque `Literal` otherwise. -/
theorem parse_value_long_alnum (s : List Char)
    (hall : s.all isAsciiAlphanum = true) (hlen : 39 < s.length) :
    (hexAltMatches s = true ∧ ∃ bs, parse_value (String.mk s) = some (Value.hex bs)) ∨
    (hexAltMatches s = false ∧
      parse_value (String.mk s) = some (Value.literal (String.mk s))) := by
  cases s with
  | nil => simp at hlen
  | cons c cs =>
    cases cs with
    | nil => simp at hlen
    | cons c2 cs2 =>
      rcases scon_value_long_alnum c c2 cs2 hall hlen
          (2 * (c :: c2 :: cs2).length + 1) with ⟨hhx, bs, rest, hval⟩ | ⟨hhx, hval⟩
      · left
        exact ⟨hhx, bs, by rw [parse_value_eq, hval]⟩
      · right
        exact ⟨hhx, by rw [parse_value_eq, hval]⟩


set_option maxRecDepth 8000 in
/-- Counterexample for C7 as stated: `longHexString` (`0x` followed by 38
`a`s) is an alphanumeric run of 40 characters, strictly longer than 39,
yet `parse_value` produces `Hex` for it, not `Literal`, because the hex
alternative is tried before the opaque-literal one. -/
theorem scon_literal_priority_counterexample :
    longHexString.data.all isAsciiAlphanum = true ∧
    39 < longHexString.data.length ∧
    parse_value longHexString = some (Value.hex (List.replicate 19 170)) ∧
    parse_value longHexString ≠ some (Value.literal longHexString) := by
  refine ⟨by decide, by decide, rfl, ?_⟩
  intro h
  rw [show parse_value longHexString = some (Value.hex (List.replicate 19 170))
    from rfl] at h
  exact Value.noConfusion (Option.some.inj h)

set_option maxRecDepth 8000 in
/-- C7 amended: the literal parser maps `"()"` to Unit, `"true"`/`"false"`
to Bool, `"0x0a1b"` to `Hex [0x0a, 0x1b]`, `"[1, 2, 3]"` to a Seq of UInts,
`"-5"` to `Int (-5)`, `"5"` to `UInt 5`; and every alphanumeric run
strictly longer than 39 characters produces neither UInt nor Int — it
produces Literal unless the run begins with a hex literal (`0x` followed by
an even, positive number of hex digits), in which case the earlier hex
alternative produces Hex. -/
theorem scon_literal_priority :
    parse_value "()" = some Value.unit ∧
    parse_value "true" = some (Value.bool true) ∧
    parse_value "false" = some (Value.bool false) ∧
    parse_value "0x0a1b" = some (Value.hex [10, 27]) ∧
    parse_value "[1, 2, 3]" =
      some (Value.seq [Value.uint 1, Value.uint 2, Value.uint 3]) ∧
    parse_value "-5" = some (Value.int (-5)) ∧
    parse_value "5" = some (Value.uint 5) ∧
    ∀ s : List Char, s.all isAsciiAlphanum = true → 39 < s.length →
      (hexAltMatches s = false →
        parse_value (String.mk s) = some (Value.literal (String.mk s))) ∧
      ∀ v, parse_value (String.mk s) = some v →
        (∀ n, v ≠ Value.uint n) ∧ (∀ i, v ≠ Value.int i) := by
  refine ⟨rfl, rfl, rfl, rfl, rfl, rfl, rfl, ?_⟩
  intro s hall hlen
  rcases parse_value_long_alnum s hall hlen with ⟨hhx, bs, hval⟩ | ⟨hhx, hval⟩
  · refine ⟨fun hfalse => absurd hhx (by simp [hfalse]), ?_⟩
    intro v hv
    rw [hval] at hv
    cases hv
    exact ⟨fun n h => Value.noConfusion h, fun i h => Value.noConfusion h⟩
  · refine ⟨fun _ => hval, ?_⟩
    intro v hv
    rw [hval] at hv
    cases hv
    exact ⟨fun n h => Value.noConfusion h, fun i h => Value.noConfusion h⟩

set_option maxRecDepth 8000 in
/-- Witness for C7 amended: 40 `z`s are a >39-character alphanumeric run
with no hex head, and they parse to the opaque Literal. -/
theorem scon_literal_priority_witness :
    (longAlnumString.data.all isAsciiAlphanum = true ∧
      39 < longAlnumString.data.length ∧
      hexAltMatches longAlnumString.data = false) ∧
    parse_value (String.mk longAlnumString.data) =
      some (Value.literal (String.mk longAlnumString.data)) :=
  ⟨⟨by decide, by decide, by decide⟩,
    (scon_literal_priority.2.2.2.2.2.2.2 longAlnumString.data
      (by decide) (by decide)).1 (by decide)⟩

end InkQueries
